import Mathlib

/-!
Verification development for the `terminator` repository's sequence
execution engine and two of its Python example clients.

The repository's Python files under `examples/` are thin clients: they submit
an `execute_sequence` request over MCP and render the response.  The engine
itself (validator, step executor, progress emitter, result aggregator) is the
backing MCP agent, whose sources are not part of this tree; its behaviour is
modelled here from the design specification.  The two client-side pieces of
logic that do live in this tree — the night-shift agent's cycle loop
(`examples/cursor_night_shift_agent.py`) and the progress-notification
renderer (`examples/python_mcp_progress_demo.py`) — are embedded directly
from their Python sources.
-/

namespace SeqEngine

/-- Modelled from the spec: outcome of one Backend dispatch attempt
(`invoke(tool_name, arguments, timeout_ms) -> { payload } | { error_kind,
error_detail }`), together with the wall-clock time the attempt took. -/
inductive Outcome where
  | ok (payload : String) (duration_ms : Nat)
  | err (error_detail : String) (duration_ms : Nat)
deriving Repr, DecidableEq

/-- Modelled from the spec: the opaque Backend Action Dispatcher, as an
oracle giving the outcome of dispatching step `index` on its (1-based)
attempt number. -/
def Backend : Type := Nat → Nat → Outcome

/-- Modelled from the spec: a step's retry policy (`max_attempts ≥ 1`,
`backoff_ms`). -/
structure RetryPolicy where
  max_attempts : Nat
  backoff_ms : Nat
deriving Repr, DecidableEq

/-- Modelled from the spec: a normalized Step of a SequenceDefinition. -/
structure Step where
  tool_name : String
  arguments : List (String × String)
  delay_ms : Nat
  retry_policy : Option RetryPolicy
  continue_on_error : Option Bool
deriving Repr, DecidableEq

/-- Modelled from the spec: `ExecutionOptions` of a submitted sequence. -/
structure ExecutionOptions where
  stop_on_error : Bool
  include_detailed_results : Bool
  progress_token : Option String
deriving Repr, DecidableEq

/-- Modelled from the spec: terminal status of a StepResult. -/
inductive StepStatus where
  | Success
  | Error
  | Skipped
deriving Repr, DecidableEq

/-- Modelled from the spec: per-step result record. -/
structure StepResult where
  index : Nat
  tool_name : String
  status : StepStatus
  attempt_count : Nat
  duration_ms : Nat
  result_payload : Option String
  error_detail : Option String
deriving Repr, DecidableEq

/-- Modelled from the spec: overall status classification of a run. -/
inductive OverallStatus where
  | Success
  | PartialSuccess
  | Failed
  | Cancelled
deriving Repr, DecidableEq

/-- Modelled from the spec: the `ExecutionSummary` built by the Result
Aggregator. -/
structure ExecutionSummary where
  total_steps : Nat
  successful_steps : Nat
  failed_steps : Nat
  skipped_steps : Nat
  total_duration_ms : Nat
  overall_status : OverallStatus
deriving Repr, DecidableEq

/-- Modelled from the spec: a progress notification event keyed by the
caller-supplied token. -/
structure ProgressEvent where
  token : String
  progress : Nat
  total : Nat
  message : String
deriving Repr, DecidableEq

/-- Result of driving one step through its retry loop: whether it finally
succeeded, how many dispatch attempts were made, the time spent in dispatch
attempts (the step's own `duration_ms`), the wall-clock time including
retry `backoff_ms` waits, and the payload or error detail. -/
structure AttemptOutcome where
  ok : Bool
  attempt_count : Nat
  duration_ms : Nat
  elapsed_ms : Nat
  payload : Option String
  error_detail : Option String
deriving Repr, DecidableEq

/-- Modelled from the spec: the executor's bounded retry loop for one step.
`made` attempts were already made; at most `remaining` more may be made.  On
failure the attempt counter is advanced and, when retries remain, the loop
waits `backoff` and dispatches again. -/
def attemptLoop (backend : Backend) (idx backoff : Nat) :
    Nat → Nat → AttemptOutcome
  | _, 0 =>
    { ok := false, attempt_count := 0, duration_ms := 0, elapsed_ms := 0,
      payload := none, error_detail := some "no attempts allowed" }
  | made, remaining + 1 =>
    match backend idx (made + 1) with
    | .ok p d =>
      { ok := true, attempt_count := made + 1, duration_ms := d,
        elapsed_ms := d, payload := some p, error_detail := none }
    | .err e d =>
      if remaining = 0 then
        { ok := false, attempt_count := made + 1, duration_ms := d,
          elapsed_ms := d, payload := none, error_detail := some e }
      else
        let rest := attemptLoop backend idx backoff (made + 1) remaining
        { rest with
            duration_ms := d + rest.duration_ms,
            elapsed_ms := d + backoff + rest.elapsed_ms }

/-- Modelled from the spec: execute one step at position `idx`, driving it
from Pending through the retry loop to a terminal Success or Error.
Returns the StepResult and the wall-clock time the step occupied
(dispatch attempts plus backoff waits). -/
def executeStep (backend : Backend) (idx : Nat) (step : Step) :
    StepResult × Nat :=
  let pol := step.retry_policy.getD { max_attempts := 1, backoff_ms := 0 }
  let a := attemptLoop backend idx pol.backoff_ms 0 pol.max_attempts
  ({ index := idx, tool_name := step.tool_name,
     status := if a.ok then .Success else .Error,
     attempt_count := a.attempt_count, duration_ms := a.duration_ms,
     result_payload := a.payload, error_detail := a.error_detail }, a.elapsed_ms)

/-- Modelled from the spec: the StepResult of a step marked Skipped without
being dispatched. -/
def skipResult (idx : Nat) (step : Step) : StepResult :=
  { index := idx, tool_name := step.tool_name, status := .Skipped,
    attempt_count := 0, duration_ms := 0, result_payload := none,
    error_detail := some "skipped" }

/-- Modelled from the spec: mark every remaining Pending step Skipped,
without dispatching any of them. -/
def skipAll (idx : Nat) : List Step → List StepResult
  | [] => []
  | s :: rest => skipResult idx s :: skipAll (idx + 1) rest

/-- Progress entries (settled count and message) for a run of skipped
steps: each skipped step still settles and is reported. -/
def skipEvents (idx : Nat) : List Step → List (Nat × String)
  | [] => []
  | s :: rest =>
    (idx + 1, "Skipped " ++ s.tool_name) :: skipEvents (idx + 1) rest

/-- Modelled from the spec: is cancellation observed at the boundary before
the step at `idx`, `elapsed` ms into the run?  Caller cancellation is
observed at the first boundary at or past `cancel_at`; exceeding the
optional deadline behaves like cancellation. -/
def cancelRequested (cancel_at deadline_ms : Option Nat)
    (idx elapsed : Nat) : Bool :=
  (match cancel_at with
   | some c => c ≤ idx
   | none => false) ||
  (match deadline_ms with
   | some d => d < elapsed
   | none => false)

/-- Modelled from the spec: does the executor stop the loop after this
step's terminal Error?  The per-step `continue_on_error` override takes
precedence; a step without one inherits the sequence-level policy. -/
def stopAfterError (stopOnError : Bool) (step : Step) : Bool :=
  !(step.continue_on_error.getD (!stopOnError))

/-- Modelled from the spec: the serial execution loop of the Step Executor.
Processes the remaining steps starting at index `idx` with `elapsed` ms
already spent.  Returns the StepResults (one per remaining step), the
progress entries (settled count and message, one per settled step), the
final elapsed time, and whether cancellation was observed. -/
def runLoop (backend : Backend) (stopOnError : Bool)
    (cancel_at deadline_ms : Option Nat) :
    List Step → Nat → Nat →
    List StepResult × List (Nat × String) × Nat × Bool
  | [], _, elapsed => ([], [], elapsed, false)
  | step :: rest, idx, elapsed =>
    if cancelRequested cancel_at deadline_ms idx elapsed then
      (skipAll idx (step :: rest), skipEvents idx (step :: rest),
       elapsed, true)
    else
      let ex := executeStep backend idx step
      let elapsed2 := elapsed + ex.2 + step.delay_ms
      let entry := (idx + 1, "Completed " ++ step.tool_name)
      if ex.1.status = .Error && stopAfterError stopOnError step then
        (ex.1 :: skipAll (idx + 1) rest, entry :: skipEvents (idx + 1) rest,
         elapsed2, false)
      else
        let r :=
          runLoop backend stopOnError cancel_at deadline_ms rest
            (idx + 1) elapsed2
        (ex.1 :: r.1, entry :: r.2.1, r.2.2.1, r.2.2.2)

/-- Modelled from the spec: the boundary at which the executor observes
cancellation — caller-initiated (`cancel_at`) or deadline-initiated
(`deadline_ms` exceeded) — measured as the number of steps that settle
before the remaining Pending steps are marked Skipped.  Mirrors the
executor loop step for step (same boundary check, same elapsed-time
evolution); when the loop ends for another reason (completion or
stop-on-error) every step settles and the value is the full length. -/
def cancelPoint (backend : Backend) (stopOnError : Bool)
    (cancel_at deadline_ms : Option Nat) : List Step → Nat → Nat → Nat
  | [], _, _ => 0
  | step :: rest, idx, elapsed =>
    if cancelRequested cancel_at deadline_ms idx elapsed then 0
    else
      let ex := executeStep backend idx step
      if ex.1.status = .Error && stopAfterError stopOnError step then
        rest.length + 1
      else
        cancelPoint backend stopOnError cancel_at deadline_ms rest (idx + 1)
          (elapsed + ex.2 + step.delay_ms) + 1

/-- Count the StepResults with the given status. -/
def countStatus (st : StepStatus) (rs : List StepResult) : Nat :=
  (rs.filter (fun r => r.status = st)).length

/-- Modelled from the spec: the Result Aggregator's overall-status rule.
Cancellation takes precedence; `Success` iff no failed and no skipped
steps; `PartialSuccess` when some step succeeded; otherwise `Failed`. -/
def classify (cancelled : Bool) (rs : List StepResult) : OverallStatus :=
  if cancelled then .Cancelled
  else if countStatus .Error rs = 0 ∧ countStatus .Skipped rs = 0 then
    .Success
  else if 0 < countStatus .Success rs then .PartialSuccess
  else .Failed

/-- Modelled from the spec: build the ExecutionSummary from the completed
StepResult list. -/
def mkSummary (total : Nat) (cancelled : Bool) (rs : List StepResult)
    (dur : Nat) : ExecutionSummary :=
  { total_steps := total,
    successful_steps := countStatus .Success rs,
    failed_steps := countStatus .Error rs,
    skipped_steps := countStatus .Skipped rs,
    total_duration_ms := dur,
    overall_status := classify cancelled rs }

/-- The full outcome of one engine run. -/
structure RunResult where
  step_results : List StepResult
  events : List ProgressEvent
  cancelled : Bool
  execution_summary : ExecutionSummary
deriving Repr, DecidableEq

/-- Modelled from the spec: run a validated sequence.  The Progress Emitter
publishes events only when a `progress_token` was supplied: an initial
event at progress 0 before the first step, then one event per settled
step. -/
def runEngine (steps : List Step) (opts : ExecutionOptions)
    (backend : Backend) (cancel_at deadline_ms : Option Nat) : RunResult :=
  let n := steps.length
  let r := runLoop backend opts.stop_on_error cancel_at deadline_ms steps 0 0
  let events := match opts.progress_token with
    | none => []
    | some t =>
      { token := t, progress := 0, total := n,
        message := "Starting sequence" } ::
      r.2.1.map (fun pe =>
        { token := t, progress := pe.1, total := n, message := pe.2 })
  { step_results := r.1, events := events, cancelled := r.2.2.2,
    execution_summary := mkSummary n r.2.2.2 r.1 r.2.2.1 }

/-- Modelled from the spec: a step's retry policy as submitted, before
validation/normalization. -/
structure RawRetryPolicy where
  max_attempts : Option Int
  backoff_ms : Option Int
deriving Repr, DecidableEq

/-- Modelled from the spec: a step as submitted by the caller, before the
Sequence Validator normalizes it.  `tool_name` may be missing and numeric
fields may be negative. -/
structure RawStep where
  tool_name : Option String
  arguments : Option (List (String × String))
  delay_ms : Option Int
  retry_policy : Option RawRetryPolicy
  continue_on_error : Option Bool
deriving Repr, DecidableEq

/-- Modelled from the spec: the fatal pre-execution validation error. -/
structure ValidationError where
  message : String
deriving Repr, DecidableEq

/-- Modelled from the spec: the Sequence Validator's per-step check and
normalization: non-empty `tool_name`, string-keyed argument mapping with
unique keys, non-negative numeric fields, `max_attempts ≥ 1`; missing
optional fields default to `delay_ms = 0`, no retry. -/
def validateStep (s : RawStep) : Except ValidationError Step :=
  match s.tool_name with
  | none => .error { message := "step is missing tool_name" }
  | some t =>
    if t = "" then .error { message := "step has empty tool_name" }
    else
      let args := s.arguments.getD []
      if ¬ (args.map Prod.fst).Nodup then
        .error { message := "duplicate argument keys" }
      else
        let d := s.delay_ms.getD 0
        if d < 0 then .error { message := "negative delay_ms" }
        else
          match s.retry_policy with
          | none =>
            .ok { tool_name := t, arguments := args, delay_ms := d.toNat,
                  retry_policy := none,
                  continue_on_error := s.continue_on_error }
          | some rp =>
            let m := rp.max_attempts.getD 1
            let b := rp.backoff_ms.getD 0
            if m < 1 then .error { message := "max_attempts below 1" }
            else if b < 0 then .error { message := "negative backoff_ms" }
            else
              .ok { tool_name := t, arguments := args, delay_ms := d.toNat,
                    retry_policy :=
                      some { max_attempts := m.toNat, backoff_ms := b.toNat },
                    continue_on_error := s.continue_on_error }

/-- Modelled from the spec: validate a whole submitted step list; any
malformed step makes the whole submission fail before execution starts. -/
def validateSteps : List RawStep → Except ValidationError (List Step)
  | [] => .ok []
  | s :: rest =>
    match validateStep s with
    | .error e => .error e
    | .ok st =>
      match validateSteps rest with
      | .error e => .error e
      | .ok sts => .ok (st :: sts)

/-- Modelled from the spec: the `execute_sequence` entry point.  A
validation failure is surfaced directly to the caller and execution never
starts; otherwise the executor runs and a full report is returned. -/
def execute_sequence (raw : List RawStep) (opts : ExecutionOptions)
    (backend : Backend) (cancel_at deadline_ms : Option Nat) :
    Except ValidationError RunResult :=
  match validateSteps raw with
  | .error e => .error e
  | .ok steps => .ok (runEngine steps opts backend cancel_at deadline_ms)

end SeqEngine

namespace NightShift

/-!
Embedding of `examples/cursor_night_shift_agent.py`.  The Terminator
desktop-automation calls (`locator(...).first()`, visibility checks,
key presses, launching) are opaque awaits against the live desktop; they
are modelled by an environment oracle consulted at a monotonically
increasing query counter, so that repeated lookups may observe different
UI states.  Key presses and typed text are recorded in an action trace.
-/

/-- The environment the agent's desktop calls observe: whether each cursor
selector matches at a given query tick, whether launching `cursor.exe`
succeeds, and whether each chat-input selector yields a visible element at
a given query tick. -/
structure DesktopEnv where
  cursor_found : Nat → String → Bool
  launch_ok : Bool
  chat_visible : Nat → String → Bool

/-- Mutable state of `CursorNightShiftAgent` as set up by `__init__`:
`max_retries` is stored but — as proved below — never read. -/
structure AgentState where
  prompts : List String
  interval_seconds : Nat
  max_retries : Nat
  current_prompt_index : Nat
deriving Repr, DecidableEq

/-- The `cursor_selectors` list of `find_cursor_window`. -/
def cursor_selectors : List String :=
  ["name:Cursor", "name:cursor", "window:Cursor", "window:cursor"]

/-- The `chat_selectors` list of `find_chat_input`. -/
def chat_selectors : List String :=
  ["role:textbox", "role:EditableText", "role:Edit", "name:*chat*",
   "name:*input*", "name:*message*", "placeholder:*message*",
   "placeholder:*chat*"]

/-- The `shortcuts` list of `open_chat_with_shortcut`. -/
def chat_shortcuts : List String :=
  ["{Ctrl}l", "{Ctrl}k", "{Ctrl}{Shift}p", "{F1}"]

/-- Selector loop of `find_cursor_window`: try each cursor selector in
order (one desktop query each); if none matches, fall back to launching
`cursor.exe`. -/
def findCursorLoop (env : DesktopEnv) : List String → Nat → Bool × Nat
  | [], q => (env.launch_ok, q + 1)
  | s :: rest, q =>
    if env.cursor_found q s then (true, q + 1)
    else findCursorLoop env rest (q + 1)

/-- `find_cursor_window`: focus an existing Cursor window or launch one.
Returns the success flag and the advanced query counter. -/
def find_cursor_window (env : DesktopEnv) (st : AgentState) (q : Nat) :
    Bool × Nat :=
  findCursorLoop env cursor_selectors q

/-- `find_chat_input`: one UI snapshot; the first chat selector that yields
a visible element wins. -/
def find_chat_input (env : DesktopEnv) (q : Nat) : Option String × Nat :=
  (chat_selectors.find? (env.chat_visible q), q + 1)

/-- Shortcut loop of `open_chat_with_shortcut`: press each shortcut, then
re-query for a chat input. -/
def openChatLoop (env : DesktopEnv) :
    List String → Nat → List String → Bool × Nat × List String
  | [], q, tr => (false, q, tr)
  | sc :: rest, q, tr =>
    let tr2 := tr ++ ["press " ++ sc]
    let f := find_chat_input env q
    if f.1.isSome then (true, f.2, tr2)
    else openChatLoop env rest f.2 tr2

/-- `open_chat_with_shortcut`. -/
def open_chat_with_shortcut (env : DesktopEnv) (q : Nat)
    (tr : List String) : Bool × Nat × List String :=
  openChatLoop env chat_shortcuts q tr

/-- Send-method loop of `send_prompt`: press a send key, then check the
chat input can still be found (the script's success heuristic). -/
def sendMethodLoop (env : DesktopEnv) :
    List String → Nat → List String → Bool × Nat × List String
  | [], q, tr => (false, q, tr)
  | m :: rest, q, tr =>
    let tr2 := tr ++ ["press " ++ m]
    let f := find_chat_input env q
    if f.1.isSome then (true, f.2, tr2)
    else sendMethodLoop env rest f.2 tr2

/-- The send methods tried by `send_prompt`. -/
def send_methods : List String := ["{Enter}", "{Ctrl}{Enter}", "{Shift}{Enter}"]

/-- Typing-and-sending phase of `send_prompt`, once a chat input is in
hand: clear, type the prompt, then try the send methods in turn. -/
def typeAndSend (env : DesktopEnv) (prompt : String) (q : Nat)
    (tr : List String) : Bool × Nat × List String :=
  sendMethodLoop env send_methods q
    (tr ++ ["press {Ctrl}a", "type " ++ prompt])

/-- `send_prompt`: locate (or open) the chat input and submit the prompt;
falls back to typing at the focused window when no chat input is found. -/
def send_prompt (env : DesktopEnv) (st : AgentState) (prompt : String)
    (q : Nat) (tr : List String) : Bool × Nat × List String :=
  let f1 := find_chat_input env q
  if f1.1.isSome then typeAndSend env prompt f1.2 tr
  else
    let oc := open_chat_with_shortcut env f1.2 tr
    if oc.1 then
      let f2 := find_chat_input env oc.2.1
      if f2.1.isSome then typeAndSend env prompt f2.2 oc.2.2
      else (true, f2.2, oc.2.2 ++ ["type " ++ prompt, "press {Enter}"])
    else (false, oc.2.1, oc.2.2)

/-- `run_single_cycle`: wrap the prompt index, focus Cursor, send the
current prompt, and advance the index on success.  An empty prompt list
raises inside the `try` and the cycle reports failure. -/
def run_single_cycle (env : DesktopEnv) (st : AgentState) (q : Nat)
    (tr : List String) : Bool × AgentState × Nat × List String :=
  let idx :=
    if st.prompts.length ≤ st.current_prompt_index then 0
    else st.current_prompt_index
  let st1 := { st with current_prompt_index := idx }
  match st.prompts.get? idx with
  | none => (false, st1, q, tr)
  | some prompt =>
    let fc := find_cursor_window env st1 q
    if fc.1 then
      let sp := send_prompt env st1 prompt fc.2 tr
      if sp.1 then
        (true, { st1 with current_prompt_index := idx + 1 }, sp.2.1, sp.2.2)
      else (false, st1, sp.2.1, sp.2.2)
    else (false, st1, fc.2, tr)

/-- An agent state with the stored `max_retries` field normalised to 0:
two states with equal erasure differ at most in `max_retries`. -/
def eraseRetries (st : AgentState) : AgentState :=
  { st with max_retries := 0 }

/-- A fixed throw-away agent state, used to express that an operation's
result does not depend on the agent state it receives. -/
def dummyState : AgentState :=
  { prompts := [], interval_seconds := 0, max_retries := 0,
    current_prompt_index := 0 }

/-- `run` with a `max_cycles` bound: drive cycles, tracking consecutive
failures (three in a row trigger a doubled inter-cycle wait and a reset of
the counter).  Returns the cycle outcomes, the sleep durations, and the
final agent state. -/
def runAgent (env : Nat → DesktopEnv) (st : AgentState)
    (cycle_count consecutive_failures : Nat) :
    Nat → List Bool × List Nat × AgentState
  | 0 => ([], [], st)
  | remaining + 1 =>
    let cyc := run_single_cycle (env cycle_count) st 0 []
    let st2 := cyc.2.1
    if cyc.1 then
      let r := runAgent env st2 (cycle_count + 1) 0 remaining
      (cyc.1 :: r.1,
       (if remaining = 0 then r.2.1 else st.interval_seconds :: r.2.1),
       r.2.2)
    else if 2 ≤ consecutive_failures then
      let r := runAgent env st2 (cycle_count + 1) 0 remaining
      (cyc.1 :: r.1, st.interval_seconds * 2 :: r.2.1, r.2.2)
    else
      let r :=
        runAgent env st2 (cycle_count + 1) (consecutive_failures + 1)
          remaining
      (cyc.1 :: r.1,
       (if remaining = 0 then r.2.1 else st.interval_seconds :: r.2.1),
       r.2.2)

end NightShift

namespace ProgressDemo

/-!
Embedding of `_handle_progress_notification` from
`examples/python_mcp_progress_demo.py`.  The handler extracts `progress`,
`total` and `message` from the notification params (defaulting to 0 / 0 /
empty), renders a percentage and a 40-cell progress bar, and prints a
completion newline.  Python's float division is modelled over `ℚ` and its
floor division `//` by `Int.fdiv`; multiplying a string by a non-positive
count yields the empty string, hence the `Int.toNat` clamps.
-/

/-- Notification params as received: each field may be absent. -/
structure RawParams where
  progress : Option Int
  total : Option Int
  message : Option String
deriving Repr, DecidableEq

/-- What one invocation of the handler renders. -/
structure Rendered where
  percentage : ℚ
  filled_cells : Nat
  empty_cells : Nat
  message : String
  newline : Bool
deriving Repr, DecidableEq

/-- `bar_length = 40` in the handler. -/
def bar_length : Nat := 40

/-- Embedding of `_handle_progress_notification`'s rendering: percentage
and bar-fill are guarded by `total > 0`, and the completion newline is
printed only when `progress == total and total > 0`. -/
def handle_progress_notification (params : RawParams) : Rendered :=
  let progress := params.progress.getD 0
  let total := params.total.getD 0
  let message := params.message.getD ""
  let percentage : ℚ :=
    if 0 < total then (progress : ℚ) / (total : ℚ) * 100 else 0
  let filled : Int :=
    if 0 < total then Int.fdiv ((bar_length : Int) * progress) total else 0
  { percentage := percentage,
    filled_cells := filled.toNat,
    empty_cells := ((bar_length : Int) - filled).toNat,
    message := message,
    newline := progress = total ∧ 0 < total }

end ProgressDemo

namespace SeqEngine

/-! Concrete sequences and backends used to exercise the engine model on
closed inputs. -/

/-- A minimal step invoking the given tool with no arguments, no delay, no
retry policy and no stop-policy override. -/
def mkStep (name : String) : Step :=
  { tool_name := name, arguments := [], delay_ms := 0, retry_policy := none,
    continue_on_error := none }

/-- A backend on which every dispatch succeeds. -/
def okBackend : Backend := fun _ _ => .ok "done" 1

/-- A backend on which step 0 always fails and every other step
succeeds. -/
def failFirstBackend : Backend := fun i _ =>
  if i = 0 then .err "boom" 5 else .ok "done" 5

/-- A backend on which every step fails on its first two attempts and
succeeds from the third attempt on. -/
def thirdTimeBackend : Backend := fun _ a =>
  if a < 3 then .err "transient" 2 else .ok "done" 2

/-- Options used by the demo clients: stop on error, detailed results,
no progress token. -/
def demoOpts : ExecutionOptions :=
  { stop_on_error := true, include_detailed_results := true,
    progress_token := none }

/-- The demo options with a progress token supplied. -/
def tokenOpts : ExecutionOptions :=
  { demoOpts with progress_token := some "tok" }

/-- A well-formed raw step for the given tool. -/
def mkRawStep (name : String) : RawStep :=
  { tool_name := some name, arguments := none, delay_ms := none,
    retry_policy := none, continue_on_error := none }

/-- A malformed raw step: the `tool_name` field is missing. -/
def badRawStep : RawStep :=
  { tool_name := none, arguments := none, delay_ms := none,
    retry_policy := none, continue_on_error := none }

/-- A step that retries up to 3 attempts with a 10 ms backoff. -/
def retryStep : Step :=
  { mkStep "flaky" with
      retry_policy := some { max_attempts := 3, backoff_ms := 10 } }

/-- Did `execute_sequence` reject the submission before execution?  A
rejected submission carries only the error: no step results and no
summary. -/
def isValidationFailure (r : Except ValidationError RunResult) : Bool :=
  match r with
  | .error _ => true
  | .ok _ => false

end SeqEngine

namespace SeqEngine

theorem skipAll_length (idx : Nat) (l : List Step) :
    (skipAll idx l).length = l.length := by
  induction l generalizing idx with
  | nil => rfl
  | cons s rest ih => simp [skipAll, ih]

theorem mem_skipAll_status {r : StepResult} {idx : Nat} {l : List Step}
    (h : r ∈ skipAll idx l) : r.status = .Skipped := by
  induction l generalizing idx with
  | nil => simp [skipAll] at h
  | cons s rest ih =>
    simp only [skipAll, List.mem_cons] at h
    rcases h with h | h
    · subst h; rfl
    · exact ih h

theorem mem_skipAll_index {r : StepResult} {idx : Nat} {l : List Step}
    (h : r ∈ skipAll idx l) : idx ≤ r.index := by
  induction l generalizing idx with
  | nil => simp [skipAll] at h
  | cons s rest ih =>
    simp only [skipAll, List.mem_cons] at h
    rcases h with h | h
    · subst h; exact Nat.le_refl _
    · exact Nat.le_of_succ_le (ih h)

theorem mem_skipAll_duration {r : StepResult} {idx : Nat} {l : List Step}
    (h : r ∈ skipAll idx l) : r.duration_ms = 0 := by
  induction l generalizing idx with
  | nil => simp [skipAll] at h
  | cons s rest ih =>
    simp only [skipAll, List.mem_cons] at h
    rcases h with h | h
    · subst h; rfl
    · exact ih h

theorem skipAll_get? (idx : Nat) (l : List Step) (j : Nat) (hj : j < l.length) :
    (skipAll idx l).get? j = some (skipResult (idx + j) (l.get ⟨j, hj⟩)) := by
  induction l generalizing idx j with
  | nil => simp at hj
  | cons s rest ih =>
    cases j with
    | zero => simp [skipAll]
    | succ j =>
      simp only [skipAll, List.get?_cons_succ]
      rw [ih (idx + 1) j (by simpa using Nat.lt_of_succ_lt_succ hj)]
      simp [Nat.add_assoc, Nat.add_comm 1 j]

theorem countStatus_cons (st : StepStatus) (r : StepResult)
    (rs : List StepResult) :
    countStatus st (r :: rs) =
      (if r.status = st then 1 else 0) + countStatus st rs := by
  simp only [countStatus, List.filter_cons]
  by_cases h : r.status = st
  · simp [h, Nat.add_comm]
  · simp [h]

theorem countStatus_partition (rs : List StepResult) :
    countStatus .Success rs + countStatus .Error rs +
      countStatus .Skipped rs = rs.length := by
  induction rs with
  | nil => rfl
  | cons r rest ih =>
    simp only [countStatus_cons, List.length_cons]
    cases h : r.status <;> simp [h] <;> omega

theorem countStatus_pos {st : StepStatus} {rs : List StepResult} :
    0 < countStatus st rs ↔ ∃ r ∈ rs, r.status = st := by
  induction rs with
  | nil => simp [countStatus]
  | cons r rest ih =>
    simp only [countStatus_cons, List.mem_cons]
    by_cases h : r.status = st
    · simp [h]
    · constructor
      · intro hpos
        rcases ih.mp (by simpa [h] using hpos) with ⟨x, hx, hxs⟩
        exact ⟨x, Or.inr hx, hxs⟩
      · rintro ⟨x, hx | hx, hxs⟩
        · exact absurd (hx ▸ hxs) h
        · simpa [h] using ih.mpr ⟨x, hx, hxs⟩

theorem countStatus_eq_zero {st : StepStatus} {rs : List StepResult} :
    countStatus st rs = 0 ↔ ∀ r ∈ rs, r.status ≠ st := by
  constructor
  · intro h r hr hst
    have : 0 < countStatus st rs := countStatus_pos.mpr ⟨r, hr, hst⟩
    omega
  · intro h
    by_contra hne
    rcases countStatus_pos.mp (Nat.pos_of_ne_zero hne) with ⟨r, hr, hst⟩
    exact h r hr hst

theorem attemptLoop_duration_le_elapsed (backend : Backend)
    (idx backoff : Nat) (made remaining : Nat) :
    (attemptLoop backend idx backoff made remaining).duration_ms ≤
      (attemptLoop backend idx backoff made remaining).elapsed_ms := by
  induction remaining generalizing made with
  | zero => simp [attemptLoop]
  | succ n ih =>
    simp only [attemptLoop]
    cases backend idx (made + 1) with
    | ok p d => simp
    | err e d =>
      dsimp only
      by_cases h : n = 0
      · simp [h]
      · rw [if_neg h]
        show d + (attemptLoop backend idx backoff (made + 1) n).duration_ms ≤
          d + backoff + (attemptLoop backend idx backoff (made + 1) n).elapsed_ms
        have := ih (made + 1)
        omega

theorem executeStep_index (backend : Backend) (idx : Nat) (s : Step) :
    (executeStep backend idx s).1.index = idx := rfl

theorem executeStep_status_ne_skipped (backend : Backend) (idx : Nat)
    (s : Step) : (executeStep backend idx s).1.status ≠ .Skipped := by
  simp only [executeStep]
  by_cases h :
      (attemptLoop backend idx
        (s.retry_policy.getD { max_attempts := 1, backoff_ms := 0 }).backoff_ms
        0
        (s.retry_policy.getD { max_attempts := 1, backoff_ms := 0 }).max_attempts).ok
  · simp [h]
  · simp [h]

theorem executeStep_duration_le (backend : Backend) (idx : Nat) (s : Step) :
    (executeStep backend idx s).1.duration_ms ≤ (executeStep backend idx s).2 :=
  attemptLoop_duration_le_elapsed backend idx _ 0 _

theorem runLoop_length (backend : Backend) (so : Bool) (ca dl : Option Nat)
    (steps : List Step) (idx elapsed : Nat) :
    (runLoop backend so ca dl steps idx elapsed).1.length = steps.length := by
  induction steps generalizing idx elapsed with
  | nil => rfl
  | cons s rest ih =>
    simp only [runLoop]
    split
    · simp [skipAll_length, skipAll]
    · split
      · simp [skipAll_length]
      · simp [ih]

theorem runLoop_mem_index {backend : Backend} {so : Bool}
    {ca dl : Option Nat} {steps : List Step} {idx elapsed : Nat}
    {r : StepResult} (h : r ∈ (runLoop backend so ca dl steps idx elapsed).1) :
    idx ≤ r.index := by
  induction steps generalizing idx elapsed with
  | nil => simp [runLoop] at h
  | cons s rest ih =>
    simp only [runLoop] at h
    split at h
    · exact mem_skipAll_index h
    · split at h
      · rcases List.mem_cons.mp h with h | h
        · subst h; simp [executeStep_index]
        · exact Nat.le_of_succ_le (mem_skipAll_index h)
      · rcases List.mem_cons.mp h with h | h
        · subst h; simp [executeStep_index]
        · exact Nat.le_of_succ_le (ih h)

theorem runLoop_get?_index {backend : Backend} {so : Bool}
    {ca dl : Option Nat} (steps : List Step) (idx elapsed : Nat) (j : Nat)
    {rj : StepResult}
    (h : (runLoop backend so ca dl steps idx elapsed).1.get? j = some rj) :
    rj.index = idx + j := by
  induction steps generalizing idx elapsed j with
  | nil => simp [runLoop] at h
  | cons s rest ih =>
    simp only [runLoop] at h
    split at h
    · have hj : j < (s :: rest).length := by
        have := List.get?_eq_some.mp h
        rcases this with ⟨hlt, _⟩
        simpa [skipAll_length] using hlt
      rw [skipAll_get? idx (s :: rest) j hj] at h
      cases h
      rfl
    · split at h
      · cases j with
        | zero =>
          simp only [List.get?_cons_zero] at h
          cases h
          simp [executeStep_index]
        | succ j =>
          simp only [List.get?_cons_succ] at h
          have hj : j < rest.length := by
            have := List.get?_eq_some.mp h
            rcases this with ⟨hlt, _⟩
            simpa [skipAll_length] using hlt
          rw [skipAll_get? (idx + 1) rest j hj] at h
          cases h
          simp [skipResult]
          omega
      · cases j with
        | zero =>
          simp only [List.get?_cons_zero] at h
          cases h
          simp [executeStep_index]
        | succ j =>
          simp only [List.get?_cons_succ] at h
          have := ih _ _ j h
          omega

theorem skipAll_duration_sum (idx : Nat) (l : List Step) :
    ((skipAll idx l).map (fun r => r.duration_ms)).sum = 0 := by
  apply List.sum_eq_zero
  intro x hx
  rcases List.mem_map.mp hx with ⟨r, hr, hrx⟩
  rw [← hrx, mem_skipAll_duration hr]

theorem runLoop_duration_sum (backend : Backend) (so : Bool)
    (ca dl : Option Nat) (steps : List Step) (idx elapsed : Nat) :
    elapsed + ((runLoop backend so ca dl steps idx elapsed).1.map
      (fun r => r.duration_ms)).sum ≤
      (runLoop backend so ca dl steps idx elapsed).2.2.1 := by
  induction steps generalizing idx elapsed with
  | nil => simp [runLoop]
  | cons s rest ih =>
    simp only [runLoop]
    split
    · simp [skipAll_duration_sum]
    · split
      · simp only [List.map_cons, List.sum_cons, skipAll_duration_sum]
        have := executeStep_duration_le backend idx s
        omega
      · simp only [List.map_cons, List.sum_cons]
        have h1 := executeStep_duration_le backend idx s
        have h2 := ih (idx + 1)
          (elapsed + (executeStep backend idx s).2 + s.delay_ms)
        omega

theorem skipEvents_map_fst (idx : Nat) (l : List Step) :
    (skipEvents idx l).map Prod.fst = List.range' (idx + 1) l.length := by
  induction l generalizing idx with
  | nil => rfl
  | cons s rest ih =>
    simp [skipEvents, ih, List.range'_succ]

theorem runLoop_events_fst (backend : Backend) (so : Bool)
    (ca dl : Option Nat) (steps : List Step) (idx elapsed : Nat) :
    ((runLoop backend so ca dl steps idx elapsed).2.1).map Prod.fst =
      List.range' (idx + 1) steps.length := by
  induction steps generalizing idx elapsed with
  | nil => rfl
  | cons s rest ih =>
    simp only [runLoop]
    split
    · simp [skipEvents_map_fst, skipEvents, List.range'_succ]
    · split
      · simp [skipEvents_map_fst, List.range'_succ]
      · simp [ih, List.range'_succ]

theorem runLoop_skip_implies_error (backend : Backend) (so : Bool)
    (ca dl : Option Nat) (steps : List Step) (idx elapsed : Nat)
    (hc : (runLoop backend so ca dl steps idx elapsed).2.2.2 = false)
    {r : StepResult} (hr : r ∈ (runLoop backend so ca dl steps idx elapsed).1)
    (hs : r.status = .Skipped) :
    ∃ r' ∈ (runLoop backend so ca dl steps idx elapsed).1,
      r'.status = .Error := by
  induction steps generalizing idx elapsed with
  | nil => simp [runLoop] at hr
  | cons s rest ih =>
    simp only [runLoop] at hc hr ⊢
    split at hc
    · simp at hc
    · rename_i hcan
      rw [if_neg hcan] at hr ⊢
      split at hc
      · rename_i hstop
        rw [if_pos hstop] at hr ⊢
        refine ⟨(executeStep backend idx s).1, List.mem_cons_self _ _, ?_⟩
        simp only [Bool.and_eq_true, decide_eq_true_eq] at hstop
        exact hstop.1
      · rename_i hstop
        rw [if_neg hstop] at hr ⊢
        rcases List.mem_cons.mp hr with h | h
        · exact absurd (h ▸ hs) (executeStep_status_ne_skipped backend idx s)
        · rcases ih _ _ hc h with ⟨r', hr', hr's⟩
          exact ⟨r', List.mem_cons_of_mem _ hr', hr's⟩

theorem stopAfterError_of_no_override {s : Step}
    (h : s.continue_on_error ≠ some true) : stopAfterError true s = true := by
  cases hco : s.continue_on_error with
  | none => simp [stopAfterError, hco]
  | some b =>
    cases b with
    | false => simp [stopAfterError, hco]
    | true => exact absurd hco h

theorem runLoop_stop_on_error (backend : Backend) (ca dl : Option Nat)
    (steps : List Step) (idx elapsed : Nat) {rk : StepResult}
    (hk : rk ∈ (runLoop backend true ca dl steps idx elapsed).1)
    (hkE : rk.status = .Error)
    (hov : ∀ sk, steps.get? (rk.index - idx) = some sk →
      sk.continue_on_error ≠ some true)
    {r' : StepResult}
    (hr' : r' ∈ (runLoop backend true ca dl steps idx elapsed).1)
    (hlt : rk.index < r'.index) : r'.status = .Skipped := by
  induction steps generalizing idx elapsed with
  | nil => simp [runLoop] at hk
  | cons s rest ih =>
    simp only [runLoop] at hk hr'
    split at hk
    · rename_i hcan
      rw [if_pos hcan] at hr'
      exact absurd (mem_skipAll_status hk) (by simp [hkE])
    · rename_i hcan
      rw [if_neg hcan] at hr'
      split at hk
      · rename_i hstop
        rw [if_pos hstop] at hr'
        rcases List.mem_cons.mp hr' with h | h
        · rcases List.mem_cons.mp hk with hkh | hkh
          · subst h
            rw [← hkh] at hlt
            simp at hlt
          · exact absurd (mem_skipAll_status hkh) (by simp [hkE])
        · exact mem_skipAll_status h
      · rename_i hstop
        rw [if_neg hstop] at hr'
        rcases List.mem_cons.mp hk with hkh | hkh
        · exfalso
          apply hstop
          have hidx : rk.index = idx := by rw [hkh, executeStep_index]
          have hs0 : (s :: rest).get? (rk.index - idx) = some s := by
            simp [hidx]
          have hno := hov s hs0
          simp only [Bool.and_eq_true, decide_eq_true_eq]
          exact ⟨by rw [← hkh, hkE], stopAfterError_of_no_override hno⟩
        · have hge : idx + 1 ≤ rk.index := runLoop_mem_index hkh
          rcases List.mem_cons.mp hr' with h | h
          · exfalso
            have : r'.index = idx := by rw [h, executeStep_index]
            omega
          · refine ih _ _ hkh ?_ h
            intro sk hsk
            apply hov sk
            have harith : rk.index - idx = (rk.index - (idx + 1)) + 1 := by
              omega
            rw [harith, List.get?_cons_succ]
            exact hsk

theorem runLoop_cancelPoint_skipped (backend : Backend) (so : Bool)
    (ca dl : Option Nat) (steps : List Step) (idx elapsed : Nat)
    {x : StepResult}
    (hx : x ∈ (runLoop backend so ca dl steps idx elapsed).1)
    (hge : idx + cancelPoint backend so ca dl steps idx elapsed ≤ x.index) :
    x.status = .Skipped := by
  induction steps generalizing idx elapsed with
  | nil => simp [runLoop] at hx
  | cons s rest ih =>
    simp only [runLoop] at hx
    simp only [cancelPoint] at hge
    split at hx
    · exact mem_skipAll_status hx
    · rename_i hcan
      rw [if_neg hcan] at hge
      split at hx
      · rename_i hstop
        rw [if_pos hstop] at hge
        rcases List.mem_cons.mp hx with h | h
        · exfalso
          have hxi : x.index = idx := by rw [h, executeStep_index]
          omega
        · exact mem_skipAll_status h
      · rename_i hstop
        rw [if_neg hstop] at hge
        rcases List.mem_cons.mp hx with h | h
        · exfalso
          have hxi : x.index = idx := by rw [h, executeStep_index]
          omega
        · refine ih _ _ h ?_
          omega

theorem runLoop_cancelPoint_prefix (backend : Backend) (so : Bool)
    (ca dl : Option Nat) (steps : List Step) (idx elapsed : Nat) :
    ((runLoop backend so ca dl steps idx elapsed).1).take
        (cancelPoint backend so ca dl steps idx elapsed) =
      ((runLoop backend so none none steps idx elapsed).1).take
        (cancelPoint backend so ca dl steps idx elapsed) := by
  induction steps generalizing idx elapsed with
  | nil => rfl
  | cons s rest ih =>
    have hcan0 : ¬ (cancelRequested none none idx elapsed = true) := by
      simp [cancelRequested]
    simp only [runLoop, cancelPoint]
    by_cases hcan : cancelRequested ca dl idx elapsed = true
    · rw [if_pos hcan, if_pos hcan, if_neg hcan0]
      simp
    · rw [if_neg hcan, if_neg hcan, if_neg hcan0]
      by_cases hstop : ((executeStep backend idx s).1.status = StepStatus.Error
          && stopAfterError so s) = true
      · rw [if_pos hstop, if_pos hstop, if_pos hstop]
      · rw [if_neg hstop, if_neg hstop, if_neg hstop]
        rw [List.take_succ_cons, List.take_succ_cons]
        exact congrArg _ (ih _ _)

theorem validateStep_missing_tool {s : RawStep} (h : s.tool_name = none) :
    validateStep s = .error { message := "step is missing tool_name" } := by
  simp [validateStep, h]

theorem validateSteps_error_of_missing (raw : List RawStep)
    (h : ∃ s ∈ raw, s.tool_name = none) :
    ∃ e, validateSteps raw = .error e := by
  induction raw with
  | nil => simp at h
  | cons s rest ih =>
    rcases h with ⟨x, hx, hxs⟩
    rcases List.mem_cons.mp hx with hh | hh
    · subst hh
      refine ⟨{ message := "step is missing tool_name" }, ?_⟩
      simp [validateSteps, validateStep_missing_tool hxs]
    · cases hv : validateStep s with
      | error e => exact ⟨e, by simp [validateSteps, hv]⟩
      | ok st =>
        rcases ih ⟨x, hh, hxs⟩ with ⟨e, he⟩
        exact ⟨e, by simp [validateSteps, hv, he]⟩

theorem validateSteps_length {raw : List RawStep} {steps : List Step}
    (h : validateSteps raw = .ok steps) : steps.length = raw.length := by
  induction raw generalizing steps with
  | nil =>
    simp only [validateSteps] at h
    cases h
    rfl
  | cons s rest ih =>
    simp only [validateSteps] at h
    cases hv : validateStep s with
    | error e => rw [hv] at h; cases h
    | ok st =>
      rw [hv] at h
      cases hr : validateSteps rest with
      | error e => rw [hr] at h; cases h
      | ok sts =>
        rw [hr] at h
        cases h
        simp [ih hr]

theorem runEngine_results (steps : List Step) (opts : ExecutionOptions)
    (backend : Backend) (ca dl : Option Nat) :
    (runEngine steps opts backend ca dl).step_results =
      (runLoop backend opts.stop_on_error ca dl steps 0 0).1 := rfl

theorem runEngine_cancelled (steps : List Step) (opts : ExecutionOptions)
    (backend : Backend) (ca dl : Option Nat) :
    (runEngine steps opts backend ca dl).cancelled =
      (runLoop backend opts.stop_on_error ca dl steps 0 0).2.2.2 := rfl

theorem runEngine_summary (steps : List Step) (opts : ExecutionOptions)
    (backend : Backend) (ca dl : Option Nat) :
    (runEngine steps opts backend ca dl).execution_summary =
      mkSummary steps.length
        (runLoop backend opts.stop_on_error ca dl steps 0 0).2.2.2
        (runLoop backend opts.stop_on_error ca dl steps 0 0).1
        (runLoop backend opts.stop_on_error ca dl steps 0 0).2.2.1 := rfl

theorem runEngine_events_some (steps : List Step) (opts : ExecutionOptions)
    (backend : Backend) (ca dl : Option Nat) (t : String)
    (h : opts.progress_token = some t) :
    (runEngine steps opts backend ca dl).events =
      { token := t, progress := 0, total := steps.length,
        message := "Starting sequence" } ::
      ((runLoop backend opts.stop_on_error ca dl steps 0 0).2.1).map
        (fun pe => { token := t, progress := pe.1, total := steps.length,
                     message := pe.2 }) := by
  simp [runEngine, h]

end SeqEngine

namespace NightShift

theorem find_cursor_window_state_free (env : DesktopEnv) (st : AgentState)
    (q : Nat) : find_cursor_window env st q = find_cursor_window env dummyState q :=
  rfl

theorem send_prompt_state_free (env : DesktopEnv) (st : AgentState)
    (prompt : String) (q : Nat) (tr : List String) :
    send_prompt env st prompt q tr = send_prompt env dummyState prompt q tr :=
  rfl

theorem eraseRetries_fields {st₁ st₂ : AgentState}
    (h : eraseRetries st₁ = eraseRetries st₂) :
    st₁.prompts = st₂.prompts ∧ st₁.interval_seconds = st₂.interval_seconds ∧
      st₁.current_prompt_index = st₂.current_prompt_index := by
  cases st₁
  cases st₂
  simp only [eraseRetries, AgentState.mk.injEq] at h
  exact ⟨h.1, h.2.1, h.2.2.2⟩

theorem eraseRetries_set (st : AgentState) (m : Nat) :
    eraseRetries { st with max_retries := m } = eraseRetries st := rfl

theorem run_single_cycle_retries (env : DesktopEnv) (p : List String)
    (i m1 m2 ci q : Nat) (tr : List String) :
    run_single_cycle env ⟨p, i, m1, ci⟩ q tr =
      ((run_single_cycle env ⟨p, i, m2, ci⟩ q tr).1,
       { (run_single_cycle env ⟨p, i, m2, ci⟩ q tr).2.1 with
           max_retries := m1 },
       (run_single_cycle env ⟨p, i, m2, ci⟩ q tr).2.2) := by
  simp only [run_single_cycle, find_cursor_window_state_free,
    send_prompt_state_free]
  rcases hg : p.get? (if p.length ≤ ci then 0 else ci) with _ | prompt
  · simp only [hg]
  · simp only [hg]
    by_cases h1 : (find_cursor_window env dummyState q).1 = true
    · rw [if_pos h1, if_pos h1]
      by_cases h2 : (send_prompt env dummyState prompt
          (find_cursor_window env dummyState q).2 tr).1 = true
      · rw [if_pos h2, if_pos h2]
      · rw [if_neg h2, if_neg h2]
    · rw [if_neg h1, if_neg h1]

theorem run_single_cycle_eqv (env : DesktopEnv) {st₁ st₂ : AgentState}
    (h : eraseRetries st₁ = eraseRetries st₂) (q : Nat) (tr : List String) :
    (run_single_cycle env st₁ q tr).1 = (run_single_cycle env st₂ q tr).1 ∧
    eraseRetries (run_single_cycle env st₁ q tr).2.1 =
      eraseRetries (run_single_cycle env st₂ q tr).2.1 ∧
    (run_single_cycle env st₁ q tr).2.2 =
      (run_single_cycle env st₂ q tr).2.2 := by
  cases st₁ with
  | mk p1 i1 mr1 c1 =>
    cases st₂ with
    | mk p2 i2 mr2 c2 =>
      simp only [eraseRetries, AgentState.mk.injEq] at h
      obtain ⟨hp, hi, -, hc⟩ := h
      subst hp
      subst hi
      subst hc
      rw [run_single_cycle_retries env p1 i1 mr1 mr2 c1 q tr]
      exact ⟨rfl, rfl, rfl⟩

theorem runAgent_eqv (envs : Nat → DesktopEnv) :
    ∀ (n : Nat) {st₁ st₂ : AgentState}
      (h : eraseRetries st₁ = eraseRetries st₂) (cc cf : Nat),
    (runAgent envs st₁ cc cf n).1 = (runAgent envs st₂ cc cf n).1 ∧
    (runAgent envs st₁ cc cf n).2.1 = (runAgent envs st₂ cc cf n).2.1 ∧
    eraseRetries (runAgent envs st₁ cc cf n).2.2 =
      eraseRetries (runAgent envs st₂ cc cf n).2.2 := by
  intro n
  induction n with
  | zero => exact fun h cc cf => ⟨rfl, rfl, h⟩
  | succ k ih =>
    intro st₁ st₂ h cc cf
    have hcyc := run_single_cycle_eqv (envs cc) h 0 []
    have hint : st₁.interval_seconds = st₂.interval_seconds :=
      (eraseRetries_fields h).2.1
    have hrec := ih hcyc.2.1
    simp only [runAgent]
    rw [hcyc.1, hint]
    by_cases h1 : (run_single_cycle (envs cc) st₂ 0 []).1 = true
    · rw [if_pos h1, if_pos h1]
      refine ⟨?_, ?_, ?_⟩
      · rw [(hrec (cc + 1) 0).1]
      · rw [(hrec (cc + 1) 0).2.1]
      · exact (hrec (cc + 1) 0).2.2
    · rw [if_neg h1, if_neg h1]
      by_cases h2 : 2 ≤ cf
      · rw [if_pos h2, if_pos h2]
        refine ⟨?_, ?_, ?_⟩
        · rw [(hrec (cc + 1) 0).1]
        · rw [(hrec (cc + 1) 0).2.1]
        · exact (hrec (cc + 1) 0).2.2
      · rw [if_neg h2, if_neg h2]
        refine ⟨?_, ?_, ?_⟩
        · rw [(hrec (cc + 1) (cf + 1)).1]
        · rw [(hrec (cc + 1) (cf + 1)).2.1]
        · exact (hrec (cc + 1) (cf + 1)).2.2

end NightShift

namespace SeqEngine

/-- C1 (counterexample): with `stop_on_error = true`, a step that terminates
Error but carries a `continue_on_error = true` override does not stop the
loop: the following step is executed and succeeds instead of being Skipped,
so the claim as stated fails on this concrete run. -/
theorem stop_on_error_override_cex :
    demoOpts.stop_on_error = true ∧
    ((runEngine [{ mkStep "a" with continue_on_error := some true },
        mkStep "b"] demoOpts failFirstBackend none none).step_results.map
      (fun r => r.status)) = [.Error, .Success] :=
  ⟨rfl, rfl⟩

/-- C1 (amended): with `stop_on_error = true`, if the step at position `k`
terminates Error and does not override the stop policy with
`continue_on_error = true`, then every step at a position `j > k` has
status Skipped in `step_results` (it is never dispatched). -/
theorem stop_on_error_skips_rest (steps : List Step)
    (opts : ExecutionOptions) (backend : Backend) (ca dl : Option Nat)
    (hso : opts.stop_on_error = true) (k : Nat) {rk : StepResult}
    (hk : (runEngine steps opts backend ca dl).step_results.get? k = some rk)
    (hkE : rk.status = .Error)
    (hov : ∀ sk, steps.get? k = some sk → sk.continue_on_error ≠ some true)
    (j : Nat) {rj : StepResult}
    (hj : (runEngine steps opts backend ca dl).step_results.get? j = some rj)
    (hkj : k < j) : rj.status = .Skipped := by
  rw [runEngine_results, hso] at hk hj
  have hkmem := List.get?_mem hk
  have hjmem := List.get?_mem hj
  have hki : rk.index = k := by simpa using runLoop_get?_index steps 0 0 k hk
  have hji : rj.index = j := by simpa using runLoop_get?_index steps 0 0 j hj
  refine runLoop_stop_on_error backend ca dl steps 0 0 hkmem hkE ?_ hjmem ?_
  · intro sk hsk
    apply hov sk
    rwa [hki, Nat.sub_zero] at hsk
  · omega

/-- C1 (witness): on a two-step run where step 0 fails with no override,
step 1 is Skipped. -/
theorem stop_on_error_skips_rest_witness :
    (runEngine [mkStep "a", mkStep "b"] demoOpts failFirstBackend none
        none).step_results.get? 1 = some (skipResult 1 (mkStep "b")) ∧
    (skipResult 1 (mkStep "b")).status = .Skipped := by
  have hk0 : (runEngine [mkStep "a", mkStep "b"] demoOpts failFirstBackend
      none none).step_results.get? 0 = some
      { index := 0, tool_name := "a", status := .Error, attempt_count := 1,
        duration_ms := 5, result_payload := none,
        error_detail := some "boom" } := rfl
  have hj1 : (runEngine [mkStep "a", mkStep "b"] demoOpts failFirstBackend
      none none).step_results.get? 1 = some (skipResult 1 (mkStep "b")) := rfl
  refine ⟨hj1, ?_⟩
  exact stop_on_error_skips_rest [mkStep "a", mkStep "b"] demoOpts
    failFirstBackend none none rfl 0 hk0 rfl
    (by intro sk hsk; cases hsk; simp [mkStep]) 1 hj1 (by omega)

/-- C5: a submission containing a step with a missing `tool_name` is
rejected as a ValidationError before any step executes: the caller
receives only the error, and no step results or summary are produced. -/
theorem validation_error_atomicity (raw : List RawStep)
    (opts : ExecutionOptions) (backend : Backend) (ca dl : Option Nat)
    (h : ∃ s ∈ raw, s.tool_name = none) :
    isValidationFailure (execute_sequence raw opts backend ca dl) = true := by
  rcases validateSteps_error_of_missing raw h with ⟨e, he⟩
  simp [execute_sequence, he, isValidationFailure]

/-- C5 (witness): the singleton submission with a missing tool name is
rejected. -/
theorem validation_error_atomicity_witness :
    isValidationFailure
      (execute_sequence [badRawStep] demoOpts okBackend none none) = true :=
  validation_error_atomicity [badRawStep] demoOpts okBackend none none
    ⟨badRawStep, by simp, rfl⟩

/-- C6: a step with `retry_policy.max_attempts = 3` whose first two
dispatches fail and whose third succeeds ends with status Success and
`attempt_count = 3`. -/
theorem retry_success_attempt_count (backend : Backend) (idx : Nat)
    (s : Step) (b : Nat)
    (hpol : s.retry_policy = some { max_attempts := 3, backoff_ms := b })
    (h1 : ∃ e d, backend idx 1 = .err e d)
    (h2 : ∃ e d, backend idx 2 = .err e d)
    (h3 : ∃ p d, backend idx 3 = .ok p d) :
    (executeStep backend idx s).1.status = .Success ∧
      (executeStep backend idx s).1.attempt_count = 3 := by
  rcases h1 with ⟨e1, d1, hb1⟩
  rcases h2 with ⟨e2, d2, hb2⟩
  rcases h3 with ⟨p3, d3, hb3⟩
  constructor <;>
    simp [executeStep, hpol, attemptLoop, hb1, hb2, hb3]

/-- C6 (witness): on a backend succeeding from the third attempt on, the
retrying step ends Success with three attempts. -/
theorem retry_success_attempt_count_witness :
    (executeStep thirdTimeBackend 0 retryStep).1.status = .Success ∧
      (executeStep thirdTimeBackend 0 retryStep).1.attempt_count = 3 :=
  retry_success_attempt_count thirdTimeBackend 0 retryStep 10 rfl
    ⟨"transient", 2, rfl⟩ ⟨"transient", 2, rfl⟩ ⟨"done", 2, rfl⟩

/-- C2: whenever validation passes, the engine produces exactly one
StepResult per submitted step, the summary counts satisfy
`successful + failed + skipped = total`, and a non-empty submission that
validates never yields zero step results. -/
theorem step_results_shape (raw : List RawStep) (opts : ExecutionOptions)
    (backend : Backend) (ca dl : Option Nat) (resp : RunResult)
    (h : execute_sequence raw opts backend ca dl = .ok resp) :
    resp.step_results.length = raw.length ∧
    resp.execution_summary.total_steps = raw.length ∧
    resp.execution_summary.successful_steps +
        resp.execution_summary.failed_steps +
        resp.execution_summary.skipped_steps =
      resp.execution_summary.total_steps ∧
    (raw ≠ [] → resp.step_results ≠ []) := by
  cases hv : validateSteps raw with
  | error e =>
    rw [execute_sequence.eq_1, hv] at h
    cases h
  | ok steps =>
    rw [execute_sequence.eq_1, hv] at h
    cases h
    have hlen := runLoop_length backend opts.stop_on_error ca dl steps 0 0
    have hraw := validateSteps_length hv
    have hres : (runEngine steps opts backend ca dl).step_results.length =
        raw.length := by
      rw [runEngine_results, hlen, hraw]
    refine ⟨hres, ?_, ?_, ?_⟩
    · rw [runEngine_summary]
      simp [mkSummary, hraw]
    · rw [runEngine_summary]
      simp only [mkSummary]
      rw [countStatus_partition, hlen, hraw]
    · intro hne hcon
      apply hne
      rw [hcon] at hres
      exact List.length_eq_zero.mp hres.symm

/-- C2 (witness): a validated one-step submission yields one result and
consistent counts. -/
theorem step_results_shape_witness :
    (runEngine [mkStep "a"] demoOpts okBackend none none).step_results.length
        = 1 ∧
    (runEngine [mkStep "a"] demoOpts okBackend none
        none).execution_summary.total_steps = 1 ∧
    (runEngine [mkStep "a"] demoOpts okBackend none
          none).execution_summary.successful_steps +
        (runEngine [mkStep "a"] demoOpts okBackend none
          none).execution_summary.failed_steps +
        (runEngine [mkStep "a"] demoOpts okBackend none
          none).execution_summary.skipped_steps =
      (runEngine [mkStep "a"] demoOpts okBackend none
        none).execution_summary.total_steps ∧
    (([mkRawStep "a"] : List RawStep) ≠ [] →
      (runEngine [mkStep "a"] demoOpts okBackend none none).step_results
        ≠ []) :=
  step_results_shape [mkRawStep "a"] demoOpts okBackend none none
    (runEngine [mkStep "a"] demoOpts okBackend none none) rfl

/-- C3: for a completed, non-cancelled run the aggregator classifies
`overall_status` as: Success iff no failed and no skipped steps;
PartialSuccess iff some step succeeded and some step is Error or Skipped;
Failed iff no step succeeded and some step is Error. -/
theorem overall_status_classification (steps : List Step)
    (opts : ExecutionOptions) (backend : Backend) (ca dl : Option Nat)
    (h : (runEngine steps opts backend ca dl).cancelled = false) :
    ((runEngine steps opts backend ca dl).execution_summary.overall_status =
        .Success ↔
      (runEngine steps opts backend ca dl).execution_summary.failed_steps = 0 ∧
      (runEngine steps opts backend ca
        dl).execution_summary.skipped_steps = 0) ∧
    ((runEngine steps opts backend ca dl).execution_summary.overall_status =
        .PartialSuccess ↔
      (∃ x ∈ (runEngine steps opts backend ca dl).step_results,
        x.status = .Success) ∧
      (∃ x ∈ (runEngine steps opts backend ca dl).step_results,
        x.status = .Error ∨ x.status = .Skipped)) ∧
    ((runEngine steps opts backend ca dl).execution_summary.overall_status =
        .Failed ↔
      (¬ ∃ x ∈ (runEngine steps opts backend ca dl).step_results,
        x.status = .Success) ∧
      ∃ x ∈ (runEngine steps opts backend ca dl).step_results,
        x.status = .Error) := by
  rw [runEngine_cancelled] at h
  rw [runEngine_summary, runEngine_results]
  simp only [mkSummary, h]
  set rs := (runLoop backend opts.stop_on_error ca dl steps 0 0).1 with hrs
  have hinv : ∀ x ∈ rs, x.status = .Skipped →
      ∃ x' ∈ rs, x'.status = .Error := by
    intro x hx hxs
    exact runLoop_skip_implies_error backend opts.stop_on_error ca dl steps
      0 0 h hx hxs
  by_cases hE : countStatus .Error rs = 0
  · by_cases hK : countStatus .Skipped rs = 0
    · have hcl : classify false rs = .Success := by simp [classify, hE, hK]
      rw [hcl]
      refine ⟨⟨fun _ => ⟨hE, hK⟩, fun _ => rfl⟩, ?_, ?_⟩
      · constructor
        · intro hcon
          cases hcon
        · rintro ⟨-, ⟨x, hx, hxs | hxs⟩⟩
          · exact absurd hxs (countStatus_eq_zero.mp hE x hx)
          · exact absurd hxs (countStatus_eq_zero.mp hK x hx)
      · constructor
        · intro hcon
          cases hcon
        · rintro ⟨-, ⟨x, hx, hxs⟩⟩
          exact absurd hxs (countStatus_eq_zero.mp hE x hx)
    · exfalso
      rcases countStatus_pos.mp (Nat.pos_of_ne_zero hK) with ⟨x, hx, hxs⟩
      rcases hinv x hx hxs with ⟨x', hx', hx'e⟩
      exact countStatus_eq_zero.mp hE x' hx' hx'e
  · by_cases hU : 0 < countStatus .Success rs
    · have hcl : classify false rs = .PartialSuccess := by
        simp [classify, hE, hU]
      rw [hcl]
      refine ⟨?_, ?_, ?_⟩
      · constructor
        · intro hcon
          cases hcon
        · rintro ⟨hE0, -⟩
          exact absurd hE0 hE
      · constructor
        · intro _
          refine ⟨countStatus_pos.mp hU, ?_⟩
          rcases countStatus_pos.mp (Nat.pos_of_ne_zero hE) with ⟨x, hx, hxe⟩
          exact ⟨x, hx, Or.inl hxe⟩
        · intro _
          rfl
      · constructor
        · intro hcon
          cases hcon
        · rintro ⟨hns, -⟩
          rcases countStatus_pos.mp hU with ⟨x, hx, hxs⟩
          exact absurd ⟨x, hx, hxs⟩ hns
    · have hU0 : countStatus .Success rs = 0 := by omega
      have hcl : classify false rs = .Failed := by
        simp [classify, hE, hU]
      rw [hcl]
      refine ⟨?_, ?_, ?_⟩
      · constructor
        · intro hcon
          cases hcon
        · rintro ⟨hE0, -⟩
          exact absurd hE0 hE
      · constructor
        · intro hcon
          cases hcon
        · rintro ⟨⟨x, hx, hxs⟩, -⟩
          exact absurd hxs (countStatus_eq_zero.mp hU0 x hx)
      · constructor
        · intro _
          refine ⟨?_, countStatus_pos.mp (Nat.pos_of_ne_zero hE)⟩
          rintro ⟨x, hx, hxs⟩
          exact countStatus_eq_zero.mp hU0 x hx hxs
        · intro _
          rfl

/-- C3 (witness): an all-success run is classified Success, matching zero
failed and skipped counts. -/
theorem overall_status_classification_witness :
    (runEngine [mkStep "a"] demoOpts okBackend none
      none).execution_summary.overall_status = .Success :=
  (overall_status_classification [mkStep "a"] demoOpts okBackend none none
    rfl).1.mpr ⟨rfl, rfl⟩

/-- C4: when a progress token is supplied, the emitted events start at
progress 0 before the first step, strictly increase, never exceed the
total, contain one event per settled step (plus the initial one), and end
with progress equal to total. -/
theorem progress_events_monotone (steps : List Step)
    (opts : ExecutionOptions) (backend : Backend) (ca dl : Option Nat)
    (t : String) (h : opts.progress_token = some t) :
    ((runEngine steps opts backend ca dl).events.map
        (fun e => e.progress)) = List.range (steps.length + 1) ∧
    ((runEngine steps opts backend ca dl).events.map
        (fun e => e.progress)).head? = some 0 ∧
    List.Chain' (fun a b => a < b)
      ((runEngine steps opts backend ca dl).events.map
        (fun e => e.progress)) ∧
    (∀ e ∈ (runEngine steps opts backend ca dl).events,
      e.progress ≤ e.total ∧ e.total = steps.length) ∧
    (runEngine steps opts backend ca dl).events.length = steps.length + 1 ∧
    ((runEngine steps opts backend ca dl).events.map
        (fun e => e.progress)).getLast? = some steps.length := by
  have hev := runEngine_events_some steps opts backend ca dl t h
  have hfst := runLoop_events_fst backend opts.stop_on_error ca dl steps 0 0
  have master : ((runEngine steps opts backend ca dl).events.map
      (fun e => e.progress)) = List.range (steps.length + 1) := by
    rw [hev, List.range_eq_range', List.range'_succ]
    simp only [List.map_cons, List.map_map]
    congr 1
  have hlenev : (runEngine steps opts backend ca dl).events.length =
      steps.length + 1 := by
    have := congrArg List.length master
    simpa using this
  refine ⟨master, ?_, ?_, ?_, hlenev, ?_⟩
  · rw [master, List.range_eq_range', List.range'_succ]
    rfl
  · rw [master]
    exact (List.pairwise_lt_range _).chain'
  · intro e he
    rw [hev] at he
    rcases List.mem_cons.mp he with he | he
    · subst he
      exact ⟨Nat.zero_le _, rfl⟩
    · rcases List.mem_map.mp he with ⟨pe, hpe, hor⟩
      subst hor
      refine ⟨?_, rfl⟩
      show pe.1 ≤ steps.length
      have hmem : pe.1 ∈ ((runLoop backend opts.stop_on_error ca dl steps
          0 0).2.1).map Prod.fst := List.mem_map_of_mem _ hpe
      rw [hfst] at hmem
      have := List.mem_range'_1.mp hmem
      omega
  · rw [master, List.range_succ, List.getLast?_concat]

/-- C4 (witness): a one-step tokenised run emits progress values 0 then
1. -/
theorem progress_events_monotone_witness :
    ((runEngine [mkStep "a"] tokenOpts okBackend none none).events.map
      (fun e => e.progress)) = List.range 2 :=
  (progress_events_monotone [mkStep "a"] tokenOpts okBackend none none
    "tok" rfl).1

/-- C7: for every run with a caller cancellation point and/or a deadline,
if the run observes cancellation then its overall status is Cancelled;
moreover — with `cancelPoint` the boundary at which cancellation (caller-
or deadline-initiated) is observed — the StepResults settled before that
boundary are exactly those of the uncancelled run (retained unchanged),
and every step at an index at or past the boundary is Skipped, not
Error. -/
theorem cancellation_frame (steps : List Step) (opts : ExecutionOptions)
    (backend : Backend) (ca dl : Option Nat) :
    ((runEngine steps opts backend ca dl).cancelled = true →
      (runEngine steps opts backend
        ca dl).execution_summary.overall_status = .Cancelled) ∧
    (runEngine steps opts backend ca dl).step_results.take
        (cancelPoint backend opts.stop_on_error ca dl steps 0 0) =
      (runEngine steps opts backend none none).step_results.take
        (cancelPoint backend opts.stop_on_error ca dl steps 0 0) ∧
    (∀ x ∈ (runEngine steps opts backend ca dl).step_results,
      cancelPoint backend opts.stop_on_error ca dl steps 0 0 ≤ x.index →
      x.status = .Skipped) := by
  refine ⟨?_, ?_, ?_⟩
  · intro h
    rw [runEngine_cancelled] at h
    rw [runEngine_summary]
    simp [mkSummary, classify, h]
  · rw [runEngine_results, runEngine_results]
    exact runLoop_cancelPoint_prefix backend opts.stop_on_error ca dl
      steps 0 0
  · intro x hx hcx
    rw [runEngine_results] at hx
    refine runLoop_cancelPoint_skipped backend opts.stop_on_error ca dl
      steps 0 0 hx ?_
    simpa using hcx

/-- C7 (witness): a three-step run against a 1 ms deadline (each step
takes 1 ms) is cancelled by the deadline at the boundary before step 2
and classified Cancelled, its settled prefix matches the uncancelled run,
and a three-step run cancelled by the caller before step 1 is likewise
classified Cancelled. -/
theorem cancellation_frame_witness :
    (runEngine [mkStep "a", mkStep "b", mkStep "c"] demoOpts okBackend
      none (some 1)).execution_summary.overall_status = .Cancelled ∧
    (runEngine [mkStep "a", mkStep "b", mkStep "c"] demoOpts okBackend
        none (some 1)).step_results.take
        (cancelPoint okBackend demoOpts.stop_on_error none (some 1)
          [mkStep "a", mkStep "b", mkStep "c"] 0 0) =
      (runEngine [mkStep "a", mkStep "b", mkStep "c"] demoOpts okBackend
        none none).step_results.take
        (cancelPoint okBackend demoOpts.stop_on_error none (some 1)
          [mkStep "a", mkStep "b", mkStep "c"] 0 0) ∧
    (runEngine [mkStep "a", mkStep "b", mkStep "c"] demoOpts okBackend
      (some 1) none).execution_summary.overall_status = .Cancelled :=
  ⟨(cancellation_frame [mkStep "a", mkStep "b", mkStep "c"] demoOpts
      okBackend none (some 1)).1 rfl,
   (cancellation_frame [mkStep "a", mkStep "b", mkStep "c"] demoOpts
      okBackend none (some 1)).2.1,
   (cancellation_frame [mkStep "a", mkStep "b", mkStep "c"] demoOpts
      okBackend (some 1) none).1 rfl⟩

/-- C8: the run's `total_duration_ms` (wall clock, including inter-step
delays and retry backoff waits) dominates the sum of the per-step
`duration_ms` values. -/
theorem total_duration_dominates (steps : List Step)
    (opts : ExecutionOptions) (backend : Backend) (ca dl : Option Nat) :
    ((runEngine steps opts backend ca dl).step_results.map
      (fun x => x.duration_ms)).sum ≤
      (runEngine steps opts backend ca dl).execution_summary.total_duration_ms := by
  rw [runEngine_results, runEngine_summary]
  have := runLoop_duration_sum backend opts.stop_on_error ca dl steps 0 0
  simpa [mkSummary] using this

end SeqEngine

namespace NightShift

/-- C9: the stored `max_retries` value has no effect on behaviour: for any
two agent configurations differing only in `max_retries`,
`find_cursor_window`, `send_prompt`, `run_single_cycle` and the `run` loop
produce identical outcomes, traces and sleep schedules, and final states
that agree except for the stored field itself. -/
theorem max_retries_no_effect :
    (∀ (env : DesktopEnv) (st : AgentState) (m q : Nat),
      find_cursor_window env { st with max_retries := m } q =
        find_cursor_window env st q) ∧
    (∀ (env : DesktopEnv) (st : AgentState) (prompt : String) (m q : Nat)
        (tr : List String),
      send_prompt env { st with max_retries := m } prompt q tr =
        send_prompt env st prompt q tr) ∧
    (∀ (env : DesktopEnv) (p : List String) (i a b ci q : Nat)
        (tr : List String),
      (run_single_cycle env ⟨p, i, a, ci⟩ q tr).1 =
        (run_single_cycle env ⟨p, i, b, ci⟩ q tr).1 ∧
      eraseRetries (run_single_cycle env ⟨p, i, a, ci⟩ q tr).2.1 =
        eraseRetries (run_single_cycle env ⟨p, i, b, ci⟩ q tr).2.1 ∧
      (run_single_cycle env ⟨p, i, a, ci⟩ q tr).2.2 =
        (run_single_cycle env ⟨p, i, b, ci⟩ q tr).2.2) ∧
    (∀ (envs : Nat → DesktopEnv) (p : List String) (i a b ci cc cf n : Nat),
      (runAgent envs ⟨p, i, a, ci⟩ cc cf n).1 =
        (runAgent envs ⟨p, i, b, ci⟩ cc cf n).1 ∧
      (runAgent envs ⟨p, i, a, ci⟩ cc cf n).2.1 =
        (runAgent envs ⟨p, i, b, ci⟩ cc cf n).2.1 ∧
      eraseRetries (runAgent envs ⟨p, i, a, ci⟩ cc cf n).2.2 =
        eraseRetries (runAgent envs ⟨p, i, b, ci⟩ cc cf n).2.2) := by
  refine ⟨fun env st m q => rfl, fun env st prompt m q tr => rfl, ?_, ?_⟩
  · intro env p i a b ci q tr
    exact @run_single_cycle_eqv env ⟨p, i, a, ci⟩ ⟨p, i, b, ci⟩ rfl q tr
  · intro envs p i a b ci cc cf n
    exact @runAgent_eqv envs n ⟨p, i, a, ci⟩ ⟨p, i, b, ci⟩ rfl cc cf

end NightShift

namespace ProgressDemo

/-- C10: the progress handler never divides by zero: whenever the received
`total` is absent, zero or negative, it renders percentage 0 and an empty
(unfilled) 40-cell bar, and the completion newline is printed exactly when
`progress == total` and `total > 0`. -/
theorem no_division_by_zero (params : RawParams) :
    (params.total.getD 0 ≤ 0 →
      (handle_progress_notification params).percentage = 0 ∧
      (handle_progress_notification params).filled_cells = 0 ∧
      (handle_progress_notification params).empty_cells = bar_length) ∧
    ((handle_progress_notification params).newline = true ↔
      params.progress.getD 0 = params.total.getD 0 ∧
        0 < params.total.getD 0) := by
  constructor
  · intro h
    have hnp : ¬ 0 < params.total.getD 0 := by omega
    refine ⟨?_, ?_, ?_⟩ <;>
      simp [handle_progress_notification, hnp, bar_length]
  · simp [handle_progress_notification]

/-- C10 (witness): a notification with `total` absent renders percentage 0
and an unfilled bar. -/
theorem no_division_by_zero_witness :
    (handle_progress_notification
      { progress := some 5, total := none, message := none }).percentage = 0 ∧
    (handle_progress_notification
      { progress := some 5, total := none, message := none }).filled_cells = 0 ∧
    (handle_progress_notification
      { progress := some 5, total := none, message := none }).empty_cells =
      bar_length :=
  (no_division_by_zero
    { progress := some 5, total := none, message := none }).1 (by decide)

end ProgressDemo

